import Mathlib

/-!
Verification development for the ForwardTTS acoustic model
(src/TTS/tts/models/forward_tts.py).

The numeric code operates elementwise on tensors; it is embedded here per
batch item and per tensor element.  Floating point values are modelled as
real numbers, durations and indices as natural numbers, optional tensor
arguments as `Option`, and raising Python exceptions as `Except.error`.
`torch.round` rounds half to even, modelled by `roundEven` below.
-/

/-- Round half to even (banker's rounding), the rounding mode of
`torch.round` used by `format_durations`. -/
noncomputable def roundEven (x : ℝ) : ℤ :=
  if x - (⌊x⌋ : ℝ) < 1/2 then ⌊x⌋
  else if 1/2 < x - (⌊x⌋ : ℝ) then ⌊x⌋ + 1
  else if Even ⌊x⌋ then ⌊x⌋ else ⌊x⌋ + 1

/-- Default `max_duration` of `ForwardTTSArgs` (source line 149). -/
def max_duration : ℝ := 75

/-- `ForwardTTS.format_durations` (source lines 355-374), elementwise:
`o_dr = (torch.exp(o_dr_log) - 1) * x_mask * self.length_scale`,
then `o_dr[o_dr < 1] = 1.0`, then `o_dr = torch.round(o_dr)`. -/
noncomputable def format_durations (length_scale o_dr_log x_mask : ℝ) : ℝ :=
  ((roundEven (if (Real.exp o_dr_log - 1) * x_mask * length_scale < 1 then 1
               else (Real.exp o_dr_log - 1) * x_mask * length_scale) : ℤ) : ℝ)

/-- Modelled from the spec's words for comparison with `format_durations`:
"at inference, `duration = round(max(exp(log_pred) - 1, 1) * length_scale)`,
zero wherever text_mask is 0". -/
noncomputable def format_durations_spec (length_scale o_dr_log x_mask : ℝ) : ℝ :=
  if x_mask = 0 then 0
  else ((roundEven (max (Real.exp o_dr_log - 1) 1 * length_scale) : ℤ) : ℝ)

lemma roundEven_intCast (n : ℤ) : roundEven (n : ℝ) = n := by
  unfold roundEven
  rw [Int.floor_intCast, sub_self, if_pos (by norm_num : (0:ℝ) < 1/2)]

lemma roundEven_one : roundEven (1 : ℝ) = 1 := by
  have h := roundEven_intCast 1
  norm_num at h
  exact h

lemma roundEven_two : roundEven (2 : ℝ) = 2 := by
  have h := roundEven_intCast 2
  norm_num at h
  exact h

lemma roundEven_four : roundEven (4 : ℝ) = 4 := by
  have h := roundEven_intCast 4
  norm_num at h
  exact h

lemma roundEven_hundred : roundEven (100 : ℝ) = 100 := by
  have h := roundEven_intCast 100
  norm_num at h
  exact h

lemma one_le_roundEven {x : ℝ} (h : 1 ≤ x) : 1 ≤ roundEven x := by
  have hf : (1:ℤ) ≤ ⌊x⌋ := by
    rw [Int.le_floor]
    exact_mod_cast h
  unfold roundEven
  split_ifs <;> omega

lemma one_le_format_durations (ls o m : ℝ) : 1 ≤ format_durations ls o m := by
  unfold format_durations
  have h : 1 ≤ roundEven (if (Real.exp o - 1) * m * ls < 1 then 1
                          else (Real.exp o - 1) * m * ls) := by
    apply one_le_roundEven
    split_ifs with hc
    · exact le_refl 1
    · exact not_lt.mp hc
  exact_mod_cast h

lemma ite_lt_one_eq_max (t : ℝ) : (if t < 1 then (1:ℝ) else t) = max t 1 := by
  rcases lt_or_le t 1 with h | h
  · rw [if_pos h, max_eq_right h.le]
  · rw [if_neg (not_lt.mpr h), max_eq_left h]

/-- Claim C1 (counterexample): the claimed formula
`round(max(exp(o_dr_log) - 1, 1) * length_scale)` at in-mask positions, with 0
at masked positions, disagrees with the code.  At `x_mask = 0` the code yields
1 (the `< 1` clamp runs after masking), not 0; and at
`o_dr_log = log(3/2), length_scale = 4` the code yields 2 (clamp after
length scaling) while the claimed formula yields 4 (max before scaling). -/
theorem format_durations_claim_cex :
    format_durations 1 0 0 = 1 ∧ format_durations_spec 1 0 0 = 0 ∧
    format_durations 4 (Real.log (3/2)) 1 = 2 ∧
    format_durations_spec 4 (Real.log (3/2)) 1 = 4 := by
  have hexp : Real.exp (Real.log (3/2)) = 3/2 := Real.exp_log (by norm_num)
  refine ⟨?_, ?_, ?_, ?_⟩
  · unfold format_durations
    rw [show (Real.exp 0 - 1) * 0 * 1 = 0 by ring]
    rw [if_pos (by norm_num : (0:ℝ) < 1), roundEven_one]
    norm_num
  · unfold format_durations_spec
    rw [if_pos rfl]
  · unfold format_durations
    rw [hexp, show ((3:ℝ)/2 - 1) * 1 * 4 = 2 by ring]
    rw [if_neg (by norm_num : ¬ ((2:ℝ) < 1)), roundEven_two]
    norm_num
  · unfold format_durations_spec
    rw [if_neg (by norm_num : (1:ℝ) ≠ 0), hexp]
    rw [show max ((3:ℝ)/2 - 1) 1 = 1 by rw [max_eq_right (by norm_num : (3:ℝ)/2 - 1 ≤ 1)]]
    rw [one_mul, roundEven_four]
    norm_num

/-- Claim C1 (amended): for every log-duration prediction `o` and configured
length scale `ls`, `format_durations` returns
`round(max((exp(o) - 1) * ls, 1))` where the mask is 1 (the minimum clamp is
applied after the length scale), and returns 1 (not 0) where the mask is 0,
because the `< 1` clamp is applied after masking. -/
theorem format_durations_amended : ∀ ls o : ℝ,
    format_durations ls o 1 = ((roundEven (max ((Real.exp o - 1) * ls) 1) : ℤ) : ℝ) ∧
    format_durations ls o 0 = 1 := by
  intro ls o
  constructor
  · unfold format_durations
    rw [mul_one, ite_lt_one_eq_max]
  · unfold format_durations
    rw [show (Real.exp o - 1) * 0 * ls = 0 by ring]
    rw [if_pos (by norm_num : (0:ℝ) < 1), roundEven_one]
    norm_num

/-- Claim C5 (counterexample): inference durations are not bounded by the
configured `max_duration` (default 75): `format_durations` applies no maximum
clamp, so the log prediction `log 101` yields duration 100 > 75. -/
theorem inference_duration_unbounded_cex :
    format_durations 1 (Real.log 101) 1 = 100 ∧
    ¬ (format_durations 1 (Real.log 101) 1 ≤ max_duration) := by
  have hexp : Real.exp (Real.log 101) = 101 := Real.exp_log (by norm_num)
  have h : format_durations 1 (Real.log 101) 1 = 100 := by
    unfold format_durations
    rw [hexp, show ((101:ℝ) - 1) * 1 * 1 = 100 by ring]
    rw [if_neg (by norm_num : ¬ ((100:ℝ) < 1)), roundEven_hundred]
    norm_num
  refine ⟨h, ?_⟩
  rw [h]
  unfold max_duration
  norm_num

/-- Claim C5 (amended): every duration value produced by the inference pass is
an integer that is at least 1, at every position (in-mask or masked); no
`max_duration` bound holds at inference (the clamp to `max_duration` occurs
only in the training forward pass). -/
theorem inference_duration_integer_ge_one : ∀ ls o m : ℝ,
    ∃ k : ℤ, format_durations ls o m = (k : ℝ) ∧ 1 ≤ k := by
  intro ls o m
  refine ⟨roundEven (if (Real.exp o - 1) * m * ls < 1 then 1
                     else (Real.exp o - 1) * m * ls), rfl, ?_⟩
  apply one_le_roundEven
  split_ifs with hc
  · exact le_refl 1
  · exact not_lt.mp hc

/-- Claim C8: with `length_scale = 1` and log prediction `log(d+1)` at an
in-mask position, the inference duration formula returns `round(d)` for
`d ≥ 1` and returns 1 for `d < 1`. -/
theorem format_durations_round_trip (d : ℝ) (h : -1 < d) :
    (1 ≤ d → format_durations 1 (Real.log (d + 1)) 1 = ((roundEven d : ℤ) : ℝ)) ∧
    (d < 1 → format_durations 1 (Real.log (d + 1)) 1 = 1) := by
  have hexp : Real.exp (Real.log (d + 1)) = d + 1 := Real.exp_log (by linarith)
  have hval : (Real.exp (Real.log (d + 1)) - 1) * 1 * 1 = d := by rw [hexp]; ring
  constructor
  · intro h1
    unfold format_durations
    rw [hval, if_neg (not_lt.mpr h1)]
  · intro h1
    unfold format_durations
    rw [hval, if_pos h1, roundEven_one]
    norm_num

/-- Witness for C8 at `d = 3` (spec Scenario C: `log 4` maps to duration 3). -/
theorem format_durations_round_trip_witness :
    (-1 : ℝ) < 3 ∧ (1:ℝ) ≤ 3 ∧
    format_durations 1 (Real.log (3 + 1)) 1 = ((roundEven (3:ℝ) : ℤ) : ℝ) :=
  ⟨by norm_num, by norm_num,
    (format_durations_round_trip 3 (by norm_num)).1 (by norm_num)⟩

/-!
Alignment map from durations.  `generate_attn` (source lines 312-328) derives
the frame length per batch item when `y_mask` is not supplied
(`y_lengths = dr.sum(1); y_lengths[y_lengths < 1] = 1`) and builds the map
with `generate_path` over the product mask.  `sequence_mask` and
`generate_path` live in `TTS.tts.utils.helpers`, outside `src/`; they are
modelled from the spec below.  Everything is per batch item, with durations
as naturals (inference durations are rounded integers).
-/

/-- Modelled from the spec: `SequenceMasking` (spec 4.1),
`mask[t] = 1` iff `t < length`. -/
def sequence_mask (length t : ℕ) : Bool := decide (t < length)

/-- Cumulative durations: `cum d i` is the sum of the first `i` durations
(the exclusive prefix sum used by the path construction). -/
def cum (d : ℕ → ℕ) (i : ℕ) : ℕ := ∑ k ∈ Finset.range i, d k

/-- Modelled from the spec: `generate_path` of `TTS.tts.utils.helpers`
(spec 4.3 step 2): unit `i` occupies frames `[cumsum(d)[i-1], cumsum(d)[i])`,
intersected with the supplied mask. -/
def generate_path (d : ℕ → ℕ) (mask : ℕ → ℕ → Bool) (i j : ℕ) : ℕ :=
  if cum d i ≤ j ∧ j < cum d (i+1) ∧ mask i j = true then 1 else 0

/-- Frame length derived by `generate_attn` when `y_mask` is not supplied
(source lines 322-324): `y_lengths = dr.sum(1)`, then entries `< 1` are set
to 1. -/
def y_lengths_from (d : ℕ → ℕ) (Tx : ℕ) : ℕ :=
  if (∑ i ∈ Finset.range Tx, d i) < 1 then 1 else ∑ i ∈ Finset.range Tx, d i

/-- `ForwardTTS.generate_attn` (source lines 312-328), per batch item:
`Lx` is the item's text length, `yLen` the supplied frame length
(`none` when `y_mask` is not supplied), `Tx` the padded text width. -/
def generate_attn (d : ℕ → ℕ) (Lx : ℕ) (yLen : Option ℕ) (Tx : ℕ) (i j : ℕ) : ℕ :=
  generate_path d
    (fun i j => sequence_mask Lx i && sequence_mask (yLen.getD (y_lengths_from d Tx)) j) i j

/-- `ForwardTTS.expand_encoder_outputs` (source lines 330-353), one feature
channel per batch item: frame `j` receives the matrix product of the
transposed attention column with the encoder features. -/
def expand_encoder_outputs (en : ℕ → ℝ) (d : ℕ → ℕ) (Lx : ℕ) (yLen : Option ℕ)
    (Tx : ℕ) (j : ℕ) : ℝ :=
  ∑ i ∈ Finset.range Tx, (generate_attn d Lx yLen Tx i j : ℝ) * en i

lemma cum_mono (d : ℕ → ℕ) {i j : ℕ} (h : i ≤ j) : cum d i ≤ cum d j := by
  unfold cum
  exact Finset.sum_le_sum_of_subset (Finset.range_subset.mpr h)

lemma cum_succ (d : ℕ → ℕ) (i : ℕ) : cum d (i+1) = cum d i + d i :=
  Finset.sum_range_succ d i

lemma path_col_sum (d : ℕ → ℕ) (j : ℕ) (n : ℕ) :
    (∑ i ∈ Finset.range n, if cum d i ≤ j ∧ j < cum d (i+1) then 1 else 0) =
      if j < cum d n then 1 else 0 := by
  induction n with
  | zero => simp [cum]
  | succ n ih =>
    rw [Finset.sum_range_succ, ih]
    by_cases h1 : j < cum d n
    · have h2 : j < cum d (n+1) := lt_of_lt_of_le h1 (cum_mono d (Nat.le_succ n))
      have h3 : ¬ cum d n ≤ j := not_le.mpr h1
      simp [h1, h2, h3]
    · have h1' : cum d n ≤ j := not_lt.mp h1
      by_cases h2 : j < cum d (n+1)
      · simp [h1, h1', h2]
      · simp [h1, h1', h2]

lemma path_row_sum (d : ℕ → ℕ) (i m : ℕ) (h : cum d (i+1) ≤ m) :
    (∑ j ∈ Finset.range m, if cum d i ≤ j ∧ j < cum d (i+1) then 1 else 0) = d i := by
  have hsub : Finset.Ico (cum d i) (cum d (i+1)) ⊆ Finset.range m := by
    intro x hx
    rw [Finset.mem_range]
    exact lt_of_lt_of_le (Finset.mem_Ico.mp hx).2 h
  have hzero : ∀ x ∈ Finset.range m, x ∉ Finset.Ico (cum d i) (cum d (i+1)) →
      (if cum d i ≤ x ∧ x < cum d (i+1) then (1:ℕ) else 0) = 0 := by
    intro x _ hx
    rw [if_neg]
    intro hc
    exact hx (Finset.mem_Ico.mpr ⟨hc.1, hc.2⟩)
  rw [← Finset.sum_subset hsub hzero]
  have hone : ∀ x ∈ Finset.Ico (cum d i) (cum d (i+1)),
      (if cum d i ≤ x ∧ x < cum d (i+1) then (1:ℕ) else 0) = 1 := by
    intro x hx
    rw [if_pos (Finset.mem_Ico.mp hx)]
  rw [Finset.sum_congr rfl hone, Finset.sum_const, smul_eq_mul, mul_one,
    Nat.card_Ico, cum_succ]
  omega

lemma generate_attn_eq (d : ℕ → ℕ) (Lx Tx : ℕ) (i j : ℕ) :
    generate_attn d Lx none Tx i j =
      if cum d i ≤ j ∧ j < cum d (i+1) ∧ (i < Lx ∧ j < y_lengths_from d Tx)
      then 1 else 0 := by
  simp [generate_attn, generate_path, sequence_mask, and_assoc]

/-- Claim C2 (counterexample): the all-zero duration vector is non-negative
and masked to 0 outside the text mask, yet with the derived frame mask
(clamped to length 1) the single in-mask frame column of the alignment map
sums to 0, not 1. -/
theorem alignment_map_zero_sum_cex :
    y_lengths_from (fun _ => 0) 1 = 1 ∧
    (∑ i ∈ Finset.range 1, generate_attn (fun _ => 0) 1 none 1 i 0) = 0 := by
  constructor
  · rfl
  · decide

/-- Claim C2 (amended): for every duration vector `d` masked to 0 outside the
text mask, the alignment map built by duration expansion with the derived
frame mask has every in-mask frame column summing to exactly 1 provided
`sum(d) ≥ 1` (for `sum(d) = 0` the derived frame length is clamped to 1 and
that column sums to 0); every in-mask text row `i` sums to exactly `d i`; and
the total sum of the map equals `sum(d)` exactly. -/
theorem alignment_map_sums (Tx Lx : ℕ) (d : ℕ → ℕ) (hLx : Lx ≤ Tx)
    (hmask : ∀ i, Lx ≤ i → d i = 0) :
    ((1 ≤ ∑ i ∈ Finset.range Tx, d i) →
      ∀ j, j < y_lengths_from d Tx →
        (∑ i ∈ Finset.range Tx, generate_attn d Lx none Tx i j) = 1) ∧
    (∀ i, i < Lx →
      (∑ j ∈ Finset.range (y_lengths_from d Tx), generate_attn d Lx none Tx i j) = d i) ∧
    ((∑ i ∈ Finset.range Tx, ∑ j ∈ Finset.range (y_lengths_from d Tx),
        generate_attn d Lx none Tx i j) = ∑ i ∈ Finset.range Tx, d i) := by
  have hcum : cum d Tx = ∑ i ∈ Finset.range Tx, d i := rfl
  have hSle : cum d Tx ≤ y_lengths_from d Tx := by
    unfold y_lengths_from
    rw [← hcum]
    split <;> omega
  have hrow_all : ∀ i, i < Tx →
      (∑ j ∈ Finset.range (y_lengths_from d Tx), generate_attn d Lx none Tx i j) = d i := by
    intro i hi
    by_cases hix : i < Lx
    · have hterm : ∀ j ∈ Finset.range (y_lengths_from d Tx),
          generate_attn d Lx none Tx i j =
            if cum d i ≤ j ∧ j < cum d (i+1) then 1 else 0 := by
        intro j hj
        have hjy : j < y_lengths_from d Tx := Finset.mem_range.mp hj
        rw [generate_attn_eq]
        by_cases hc : cum d i ≤ j ∧ j < cum d (i+1)
        · rw [if_pos ⟨hc.1, hc.2, hix, hjy⟩, if_pos hc]
        · rw [if_neg, if_neg hc]
          intro hcc
          exact hc ⟨hcc.1, hcc.2.1⟩
      rw [Finset.sum_congr rfl hterm]
      exact path_row_sum d i (y_lengths_from d Tx)
        (le_trans (cum_mono d (by omega : i + 1 ≤ Tx)) hSle)
    · have hdi : d i = 0 := hmask i (not_lt.mp hix)
      have hterm : ∀ j ∈ Finset.range (y_lengths_from d Tx),
          generate_attn d Lx none Tx i j = 0 := by
        intro j _
        rw [generate_attn_eq, if_neg]
        intro hcc
        exact hix hcc.2.2.1
      rw [Finset.sum_congr rfl hterm, Finset.sum_const, smul_eq_mul, mul_zero, hdi]
  refine ⟨?_, ?_, ?_⟩
  · intro hS j hj
    have hLyS : y_lengths_from d Tx = cum d Tx := by
      unfold y_lengths_from
      rw [← hcum] at hS ⊢
      rw [if_neg (by omega)]
    have hterm : ∀ i ∈ Finset.range Tx,
        generate_attn d Lx none Tx i j =
          if cum d i ≤ j ∧ j < cum d (i+1) then 1 else 0 := by
      intro i _
      rw [generate_attn_eq]
      by_cases hix : i < Lx
      · by_cases hc : cum d i ≤ j ∧ j < cum d (i+1)
        · rw [if_pos ⟨hc.1, hc.2, hix, hj⟩, if_pos hc]
        · rw [if_neg, if_neg hc]
          intro hcc
          exact hc ⟨hcc.1, hcc.2.1⟩
      · have hdi : d i = 0 := hmask i (not_lt.mp hix)
        have hc : ¬ (cum d i ≤ j ∧ j < cum d (i+1)) := by
          rw [cum_succ, hdi]
          omega
        rw [if_neg, if_neg hc]
        intro hcc
        exact hix hcc.2.2.1
    rw [Finset.sum_congr rfl hterm, path_col_sum d j Tx, if_pos]
    rw [hLyS] at hj
    exact hj
  · intro i hi
    exact hrow_all i (lt_of_lt_of_le hi hLx)
  · rw [Finset.sum_congr rfl (fun i hi => hrow_all i (Finset.mem_range.mp hi))]

/-- The duration vector of spec Scenario B: `durations = [2, 0, 1]`. -/
def dB : ℕ → ℕ := fun i => if i = 0 then 2 else if i = 2 then 1 else 0

/-- Witness for C2 on spec Scenario B (`d = [2,0,1]`, all text in-mask):
row 0 of the alignment map sums to `d 0 = 2`. -/
theorem alignment_map_sums_witness :
    (∑ j ∈ Finset.range (y_lengths_from dB 3), generate_attn dB 3 none 3 0 j) = dB 0 := by
  refine (alignment_map_sums 3 3 dB (le_refl 3) ?_).2.1 0 (by norm_num)
  intro i hi
  simp only [dB]
  rw [if_neg (by omega), if_neg (by omega)]

/-- Claim C4: when `generate_attn` must derive the frame mask itself
(`y_mask` not supplied), the derived frame length of a batch item equals
`max(sum(durations), 1)`, and is always at least 1: a duration vector summing
to zero still yields an output of length 1 rather than an empty output. -/
theorem generate_attn_min_length : ∀ (d : ℕ → ℕ) (Tx : ℕ),
    y_lengths_from d Tx = max (∑ i ∈ Finset.range Tx, d i) 1 ∧
    1 ≤ y_lengths_from d Tx ∧
    y_lengths_from (fun _ => 0) Tx = 1 := by
  intro d Tx
  refine ⟨?_, ?_, ?_⟩
  · unfold y_lengths_from
    split <;> omega
  · unfold y_lengths_from
    split <;> omega
  · unfold y_lengths_from
    rw [if_pos]
    rw [Finset.sum_const, smul_eq_mul, mul_zero]
    omega

/-!
Pitch and energy predictor control at inference (source lines 490-497 and
538-545, the branch with no ground-truth contour): the control factor is
added to the raw prediction, then a replacement tensor, when supplied,
overwrites the result.  Modelled per element, values as reals.
-/

/-- `ForwardTTS._forward_pitch_predictor`, inference branch (`pitch is None`,
source lines 490-497): `o_pitch = o_pitch + pitch_control` when a control is
supplied, then `o_pitch = pitch_replace` when a replacement is supplied. -/
def forward_pitch_predictor_infer (o_pitch : ℝ)
    (pitch_control pitch_replace : Option ℝ) : ℝ :=
  let o_pitch := match pitch_control with
    | some c => o_pitch + c
    | none => o_pitch
  match pitch_replace with
  | some r => r
  | none => o_pitch

/-- `ForwardTTS._forward_energy_predictor`, inference branch
(`energy is None`, source lines 538-545), same shape as the pitch branch. -/
def forward_energy_predictor_infer (o_energy : ℝ)
    (energy_control energy_replace : Option ℝ) : ℝ :=
  let o_energy := match energy_control with
    | some c => o_energy + c
    | none => o_energy
  match energy_replace with
  | some r => r
  | none => o_energy

/-- Claim C3: at inference with no ground-truth contour, a supplied
replacement wins over any control factor (for every control, including none);
a control alone adjusts the raw prediction additively; with neither, the raw
prediction is returned.  Stated for both the pitch and the energy
predictor. -/
theorem pitch_energy_control_precedence :
    ∀ (p e c r : ℝ) (ctl : Option ℝ),
    forward_pitch_predictor_infer p ctl (some r) = r ∧
    forward_pitch_predictor_infer p (some c) none = p + c ∧
    forward_pitch_predictor_infer p none none = p ∧
    forward_energy_predictor_infer e ctl (some r) = r ∧
    forward_energy_predictor_infer e (some c) none = e + c ∧
    forward_energy_predictor_infer e none none = e := by
  intro p e c r ctl
  cases ctl <;>
    simp [forward_pitch_predictor_infer, forward_energy_predictor_infer]

/-!
Speaker conditioning input (source lines 588-599) and the inference entry
point's dictionary accesses (source lines 763-764 and 855-864).  The Python
`aux_input` dictionary is modelled as an association list; `aux_input.get(k,
None)` as `dict_get` (total) and the raising subscript `aux_input[k]` as
`dict_item`, whose `KeyError` carries the missing key.
-/

/-- `aux_input.get(key, None)`: total lookup defaulting to `None`. -/
def dict_get (aux : List (String × Option ℝ)) (k : String) : Option ℝ :=
  match aux.lookup k with
  | some v => v
  | none => none

/-- `aux_input[key]`: raising lookup; a missing key is a `KeyError` named
after the key. -/
def dict_item (aux : List (String × Option ℝ)) (k : String) :
    Except String (Option ℝ) :=
  match aux.lookup k with
  | some v => Except.ok v
  | none => Except.error k

/-- `ForwardTTS._set_speaker_input` (source lines 588-599): error when both
d-vectors and speaker ids are supplied, error when speaker ids are supplied
without the `emb_g` embedding table, else `g = speaker_ids` when supplied
else `d_vectors`. -/
def set_speaker_input (has_emb_g : Bool) (d_vectors speaker_ids : Option ℝ) :
    Except String (Option ℝ) :=
  if d_vectors.isSome && speaker_ids.isSome then
    Except.error "Cannot use d-vectors and speaker-ids together."
  else if speaker_ids.isSome && !has_emb_g then
    Except.error "Cannot use speaker-ids without enabling speaker embedding."
  else
    Except.ok (if speaker_ids.isSome then speaker_ids else d_vectors)

/-- True exactly on `Except.error`. -/
def exceptIsError {ε α : Type} : Except ε α → Bool
  | Except.error _ => true
  | Except.ok _ => false

/-- Claim C7: `_set_speaker_input` raises if and only if both `d_vectors` and
`speaker_ids` are supplied (non-None), or `speaker_ids` is supplied for a
model without a speaker-id embedding table; otherwise it returns
`speaker_ids` when supplied, else `d_vectors`. -/
theorem set_speaker_input_spec (has_emb_g : Bool) (dv sid : Option ℝ) :
    (exceptIsError (set_speaker_input has_emb_g dv sid) = true ↔
      (dv.isSome = true ∧ sid.isSome = true) ∨
        (sid.isSome = true ∧ has_emb_g = false)) ∧
    (∀ g, set_speaker_input has_emb_g dv sid = Except.ok g →
      g = if sid.isSome then sid else dv) := by
  rcases dv with _ | v <;> rcases sid with _ | s <;> cases has_emb_g <;>
    simp [set_speaker_input, exceptIsError]

/-- Witness for C7: speaker ids without an embedding table raise; with the
table and only speaker ids supplied, the call returns the speaker ids. -/
theorem set_speaker_input_spec_witness :
    exceptIsError (set_speaker_input false none (some (5:ℝ))) = true ∧
    some (5:ℝ) = (if (some (5:ℝ)).isSome then some (5:ℝ) else (none : Option ℝ)) :=
  ⟨(set_speaker_input_spec false none (some 5)).1.mpr (Or.inr ⟨rfl, rfl⟩),
    (set_speaker_input_spec true none (some 5)).2 (some 5) rfl⟩

/-!
Training-mode forward pass: duration selection and data flow
(source lines 706-761).  `o_dr_log`, the encoder and the aligner network are
external collaborators; their per-call outputs enter the model as parameters.
`maximum_path` (MAS) is outside `src/`, so the hard alignment map `mas` is a
parameter as well; the row-sum durations `o_alignment_dur` computed from it
(source line 584) and the flow of `dr` through the pitch, energy and decoder
stages are the code under verification.
-/

/-- `o_alignment_dur = torch.sum(alignment_mas, -1)` (source line 584): row
sums of the hard MAS alignment map over the `Ty` frame columns. -/
def o_alignment_dur (mas : ℕ → ℕ → ℕ) (Ty : ℕ) : ℕ → ℕ :=
  fun i => ∑ j ∈ Finset.range Ty, mas i j

/-- Training-time duration transform (source line 711):
`o_dr = torch.clamp(torch.exp(o_dr_log) - 1, 0, self.max_duration)`. -/
noncomputable def train_o_dr (max_dur o_dr_log : ℝ) : ℝ :=
  min (max (Real.exp o_dr_log - 1) 0) max_dur

/-- Outputs of the training forward pass that carry durations: `durations`
(the clamped predictor output, returned for the duration loss), the `dr`
arguments handed to the pitch predictor, the energy predictor and the
decoder expansion, and the returned `o_alignment_dur`. -/
structure ForwardOutputs where
  durations : ℕ → ℝ
  dr_pitch : Option (ℕ → ℕ)
  dr_energy : Option (ℕ → ℕ)
  alignments : ℕ → ℕ → ℕ
  align_dur : Option (ℕ → ℕ)

/-- `ForwardTTS.forward` duration flow (source lines 706-761): when the
aligner is enabled, `dr` is overwritten with `o_alignment_dur` (line 725)
before the pitch predictor, the energy predictor and the decoder expansion
consume it; otherwise the externally supplied `dr0` flows through. -/
noncomputable def forward_model (use_aligner : Bool) (max_dur : ℝ)
    (o_dr_log : ℕ → ℝ) (dr0 : Option (ℕ → ℕ)) (mas : ℕ → ℕ → ℕ)
    (Lx Tx Ly : ℕ) : ForwardOutputs :=
  let dr : Option (ℕ → ℕ) :=
    if use_aligner then some (o_alignment_dur mas Ly) else dr0
  { durations := fun i => train_o_dr max_dur (o_dr_log i)
    dr_pitch := dr
    dr_energy := dr
    alignments := generate_attn (dr.getD (fun _ => 0)) Lx (some Ly) Tx
    align_dur := if use_aligner then some (o_alignment_dur mas Ly) else none }

/-- Claim C6: in a training-mode forward call with the aligner enabled, the
durations used for pitch and energy averaging, for expansion and decoding,
and returned as `o_alignment_dur` are the row sums of the hard MAS alignment
map, overriding any externally supplied `dr0`; with the aligner disabled the
supplied durations are used directly and no `o_alignment_dur` is returned. -/
theorem forward_aligner_duration_override :
    ∀ (max_dur : ℝ) (odl : ℕ → ℝ) (dr0 : Option (ℕ → ℕ)) (dr_gt : ℕ → ℕ)
      (mas : ℕ → ℕ → ℕ) (Lx Tx Ly : ℕ),
    ((forward_model true max_dur odl dr0 mas Lx Tx Ly).dr_pitch =
        some (o_alignment_dur mas Ly) ∧
      (forward_model true max_dur odl dr0 mas Lx Tx Ly).dr_energy =
        some (o_alignment_dur mas Ly) ∧
      (forward_model true max_dur odl dr0 mas Lx Tx Ly).alignments =
        generate_attn (o_alignment_dur mas Ly) Lx (some Ly) Tx ∧
      (forward_model true max_dur odl dr0 mas Lx Tx Ly).align_dur =
        some (o_alignment_dur mas Ly)) ∧
    ((forward_model false max_dur odl (some dr_gt) mas Lx Tx Ly).dr_pitch =
        some dr_gt ∧
      (forward_model false max_dur odl (some dr_gt) mas Lx Tx Ly).dr_energy =
        some dr_gt ∧
      (forward_model false max_dur odl (some dr_gt) mas Lx Tx Ly).alignments =
        generate_attn dr_gt Lx (some Ly) Tx ∧
      (forward_model false max_dur odl (some dr_gt) mas Lx Tx Ly).align_dur =
        none) := by
  intro max_dur odl dr0 dr_gt mas Lx Tx Ly
  refine ⟨⟨rfl, rfl, rfl, rfl⟩, ⟨rfl, rfl, rfl, rfl⟩⟩

/-!
Inference entry point (source lines 763-875).  `x_lengths` is built from
`x.shape[1:2]` (line 777): a single-entry length vector holding the full
padded width, broadcast over the batch, so the text mask is all ones for
every batch item.  The pitch and energy blocks read `aux_input` with the
raising subscript operator.
-/

/-- Source line 777: `x_lengths = torch.tensor(x.shape[1:2])` — a one-entry
length vector holding the padded width `Tx`, whatever the index. -/
def inference_x_lengths (Tx : ℕ) : ℕ → ℕ := fun _ => Tx

/-- Source line 778: the inference text mask for batch item `b`, position
`t`; the single-entry length vector broadcasts over the batch, so the mask
does not depend on `b`. -/
def inference_x_mask (Tx : ℕ) (_b t : ℕ) : Bool :=
  sequence_mask (inference_x_lengths Tx 0) t

/-- Default `aux_input` of `ForwardTTS.inference` (source line 764):
`{"d_vectors": None, "speaker_ids": None, 'pitch_control': None}`. -/
def aux_input_default : List (String × Option ℝ) :=
  [("d_vectors", none), ("speaker_ids", none), ("pitch_control", none)]

/-- Pitch block of `inference` (source lines 855-858): when the pitch
predictor is enabled, read `aux_input['pitch_control']` and
`aux_input['pitch_replace']` and run the predictor's inference branch. -/
def pitch_step (use_pitch : Bool) (aux : List (String × Option ℝ)) (raw : ℝ) :
    Except String (Option ℝ) :=
  if use_pitch then
    match dict_item aux "pitch_control" with
    | Except.error e => Except.error e
    | Except.ok ctl =>
      match dict_item aux "pitch_replace" with
      | Except.error e => Except.error e
      | Except.ok rep =>
        Except.ok (some (forward_pitch_predictor_infer raw ctl rep))
  else Except.ok none

/-- Energy block of `inference` (source lines 860-864), reading
`aux_input['energy_control']` and `aux_input['energy_replace']`. -/
def energy_step (use_energy : Bool) (aux : List (String × Option ℝ)) (raw : ℝ) :
    Except String (Option ℝ) :=
  if use_energy then
    match dict_item aux "energy_control" with
    | Except.error e => Except.error e
    | Except.ok ctl =>
      match dict_item aux "energy_replace" with
      | Except.error e => Except.error e
      | Except.ok rep =>
        Except.ok (some (forward_energy_predictor_infer raw ctl rep))
  else Except.ok none

/-- Outputs of a successful inference call. -/
structure InferenceOutputs where
  durations : ℕ → ℝ
  pitch : Option ℝ
  energy : Option ℝ
  g : Option ℝ

/-- `ForwardTTS.inference` (source lines 763-875): speaker input, the
all-ones text mask from the full width `Tx`, duration formatting, then the
pitch and energy blocks; any raised exception aborts the call with no output
dictionary. -/
noncomputable def inference_model (has_emb_g use_pitch use_energy : Bool)
    (length_scale : ℝ) (o_dr_log : ℕ → ℝ) (o_pitch_raw o_energy_raw : ℝ)
    (Tx : ℕ) (aux : List (String × Option ℝ)) : Except String InferenceOutputs :=
  match set_speaker_input has_emb_g (dict_get aux "d_vectors")
      (dict_get aux "speaker_ids") with
  | Except.error e => Except.error e
  | Except.ok g =>
    match pitch_step use_pitch aux o_pitch_raw with
    | Except.error e => Except.error e
    | Except.ok o_pitch =>
      match energy_step use_energy aux o_energy_raw with
      | Except.error e => Except.error e
      | Except.ok o_energy =>
        Except.ok
          { durations := fun i => format_durations length_scale (o_dr_log i)
              (if inference_x_mask Tx 0 i = true then 1 else 0)
            pitch := o_pitch
            energy := o_energy
            g := g }

/-- Claim C9: with the pitch predictor enabled, inference under the default
`aux_input` aborts with a key-lookup error on `pitch_replace`; with the pitch
predictor disabled and the energy predictor enabled, it aborts on
`energy_control`.  In both cases the result is an error, so no output
dictionary is produced. -/
theorem inference_default_aux_keyerror :
    (∀ (e ue : Bool) (ls : ℝ) (odl : ℕ → ℝ) (pr er : ℝ) (Tx : ℕ),
      inference_model e true ue ls odl pr er Tx aux_input_default =
        Except.error "pitch_replace") ∧
    (∀ (e : Bool) (ls : ℝ) (odl : ℕ → ℝ) (pr er : ℝ) (Tx : ℕ),
      inference_model e false true ls odl pr er Tx aux_input_default =
        Except.error "energy_control") := by
  constructor <;> intros <;> rfl

/-- Claim C10: at inference the length vector holds the full input width for
every batch item, so every input position of every batch item (padding
included) is in-mask, and duration formatting assigns it a duration of at
least one frame. -/
theorem inference_mask_all_ones (Tx b t : ℕ) (h : t < Tx) :
    inference_x_mask Tx b t = true ∧
    ∀ ls o : ℝ,
      1 ≤ format_durations ls o (if inference_x_mask Tx b t = true then 1 else 0) := by
  constructor
  · simp [inference_x_mask, inference_x_lengths, sequence_mask, h]
  · intro ls o
    exact one_le_format_durations ls o _

/-- Witness for C10 at `Tx = 2`, batch item 0, position 1. -/
theorem inference_mask_all_ones_witness :
    1 < 2 ∧ inference_x_mask 2 0 1 = true :=
  ⟨by norm_num, (inference_mask_all_ones 2 0 1 (by norm_num)).1⟩
